import Mathlib

/-! Shallow embedding of the two record-store programs of this repository
(src/AOL_Unit2.py, a student-performance record tool, and
src/Final_Project.py, a library-book catalog), together with proofs of the
specified properties.  Python strings are modelled as Lean `String`
(a sequence of characters); Python `int` as `Int`; a CSV file at row
granularity as a header plus a list of cell lists (the quoting layer of the
Python `csv` module is an external library, outside the repository).
Floating-point arithmetic in the statistics functions is modelled over `ℚ`,
and `math.sqrt` is modelled by exposing the radicand it is applied to. -/

/-- Models Python `str.strip()`: whitespace removed from both ends. -/
def pyStrip (s : String) : String :=
  ⟨((s.data.dropWhile Char.isWhitespace).reverse.dropWhile Char.isWhitespace).reverse⟩

/-- Models Python `str.lower()` (ASCII case folding). -/
def pyLower (s : String) : String :=
  ⟨s.data.map Char.toLower⟩

/-- Word splitter for Python `str.split()` with no argument: maximal runs of
non-whitespace characters; the accumulator holds the current word reversed. -/
def pyWordsAux (acc : List Char) : List Char → List (List Char)
  | [] => if acc.isEmpty then [] else [acc.reverse]
  | c :: cs =>
    if c.isWhitespace then
      if acc.isEmpty then pyWordsAux [] cs else acc.reverse :: pyWordsAux [] cs
    else pyWordsAux (c :: acc) cs

/-- Models Python `str.split()` (no separator argument). -/
def pySplit (s : String) : List String :=
  (pyWordsAux [] s.data).map (fun w => ⟨w⟩)

/-- Models Python `str.isdigit()` on ASCII data: nonempty and all digits. -/
def pyIsDigit (s : String) : Bool :=
  !s.data.isEmpty && s.data.all Char.isDigit

/-- Decimal digits to a natural number, or `none` when the character list is
empty or holds a non-digit. -/
def parseDigitsNat (cs : List Char) : Option Nat :=
  if cs ≠ [] ∧ cs.all Char.isDigit then
    some (cs.foldl (fun a c => a * 10 + (c.toNat - 48)) 0)
  else none

/-- Models Python `int(s)` on a string: surrounding whitespace is ignored, an
optional sign is allowed, and a non-numeric string yields `none` (the
`ValueError` path). -/
def pyInt? (s : String) : Option Int :=
  match (pyStrip s).data with
  | '-' :: cs => (parseDigitsNat cs).map (fun n => -(n : Int))
  | '+' :: cs => (parseDigitsNat cs).map (fun n => (n : Int))
  | cs => (parseDigitsNat cs).map (fun n => (n : Int))

/-- A CSV resource at row granularity: the header row and the data rows, each
a list of cell strings. -/
structure CsvFile where
  header : List String
  rows : List (List String)
deriving DecidableEq

/-- Models `csv.DictReader` row access `row.get(col)`: the cell under the
first header occurrence of `col`, `none` when the column is absent or the row
is too short. -/
def rowGet (header vals : List String) (col : String) : Option String :=
  match header.findIdx? (fun h => decide (h = col)) with
  | some i => vals[i]?
  | none => none

namespace FP

/-- One library book record (Final_Project.py, class Book). -/
structure Book where
  bid : Int
  title : String
  author : String
  category : String
  status : String
deriving DecidableEq

/-- Models LibrarySystem._clean_text: strip, then rejoin the whitespace-split
words with single spaces. -/
def _clean_text (s : String) : String :=
  ⟨List.intercalate [' '] (pyWordsAux [] (pyStrip s).data)⟩

/-- Models LibrarySystem._normalize_status. -/
def _normalize_status (s : String) : String :=
  let t := pyLower (_clean_text s)
  if t = "issued" ∨ t = "issue" then "issued"
  else if t = "available" ∨ t = "avail" ∨ t = "in" ∨ t = "in stock" then "available"
  else t

/-- Models LibrarySystem._is_valid_status. -/
def _is_valid_status (s : String) : Bool :=
  decide (s = "issued") || decide (s = "available")

/-- Models LibrarySystem._next_id: 1 on an empty store, otherwise the maximum
existing id plus one. -/
def _next_id (books : List Book) : Int :=
  match books with
  | [] => 1
  | b :: bs => (bs.foldl (fun m x => max m x.bid) b.bid) + 1

/-- Models LibrarySystem._find_by_id_linear: first-to-last scan, first match. -/
def _find_by_id_linear : List Book → Int → Option Book
  | [], _ => none
  | b :: bs, t => if b.bid = t then some b else _find_by_id_linear bs t

/-- Index of the first book with the given id; the in-place mutation of the
object returned by _find_by_id_linear (and the deletion loop of delete_book)
act at this index. -/
def findIndexById (books : List Book) (bid : Int) : Option Nat :=
  books.findIdx? (fun b => decide (b.bid = bid))

/-- Models LibrarySystem.add_book.  The Python method raises ValueError before
any mutation on an invalid field; this is rendered as returning the unchanged
store together with the error. -/
def add_book (books : List Book) (title author category status : String) :
    List Book × Except String Book :=
  let t := _clean_text title
  let a := _clean_text author
  let c := _clean_text category
  let s := _normalize_status status
  if t = "" ∨ a = "" ∨ c = "" then
    (books, .error "Title/author/category cannot be empty.")
  else if ¬ _is_valid_status s then
    (books, .error "Status must be 'issued' or 'available'.")
  else
    let nb : Book := ⟨_next_id books, t, a, c, s⟩
    (books ++ [nb], .ok nb)

/-- Models LibrarySystem.update_book.  The found Book object is mutated in
place only after all four fields validate; a raise leaves the store unchanged.
In-place mutation is rendered as replacement at the first matching index. -/
def update_book (books : List Book) (bid : Int)
    (title author category status : String) : List Book × Except String Unit :=
  match findIndexById books bid with
  | none => (books, .error "Book ID not found.")
  | some i =>
    match books[i]? with
    | none => (books, .error "Book ID not found.")
    | some book =>
      let t := _clean_text title
      let a := _clean_text author
      let c := _clean_text category
      let s := _normalize_status status
      if t = "" ∨ a = "" ∨ c = "" then
        (books, .error "Title/author/category cannot be empty.")
      else if ¬ _is_valid_status s then
        (books, .error "Status must be 'issued' or 'available'.")
      else
        (books.set i { book with title := t, author := a, category := c, status := s }, .ok ())

/-- Models LibrarySystem.delete_book: delete the first record whose id
matches, else report the lookup failure. -/
def delete_book (books : List Book) (bid : Int) : List Book × Except String Unit :=
  match findIndexById books bid with
  | none => (books, .error "Book ID not found.")
  | some i => (books.eraseIdx i, .ok ())

/-- Models LibrarySystem.load_from_csv row decoding: clean text fields,
normalize status, skip rows whose bid is not a digit string or whose fields
are incomplete or invalid. -/
def decode_book_row (header vals : List String) : Option Book :=
  let bid_str := pyStrip ((rowGet header vals "bid").getD "")
  let title := _clean_text ((rowGet header vals "title").getD "")
  let author := _clean_text ((rowGet header vals "author").getD "")
  let category := _clean_text ((rowGet header vals "category").getD "")
  let status := _normalize_status ((rowGet header vals "status").getD "")
  if ¬ pyIsDigit bid_str then none
  else if title = "" ∨ author = "" ∨ category = "" ∨ ¬ _is_valid_status status then none
  else some ⟨(pyInt? bid_str).getD 0, title, author, category, status⟩

/-- Models LibrarySystem.load_from_csv: the whole load fails unless every
required header (including the id column bid) is present verbatim; valid rows
are collected, invalid rows are skipped. -/
def load_from_csv (f : CsvFile) : Except String (List Book) :=
  if ["bid", "title", "author", "category", "status"].all (fun c => decide (c ∈ f.header)) then
    .ok (f.rows.filterMap (decode_book_row f.header))
  else
    .error "Could not load file. Reason: Invalid CSV format: missing required headers."

/-- Models LibrarySystem.save_to_csv: header row of the five field names, then
one encoded row per record in store order. -/
def save_to_csv (books : List Book) : CsvFile :=
  { header := ["bid", "title", "author", "category", "status"],
    rows := books.map (fun b => [toString b.bid, b.title, b.author, b.category, b.status]) }

/-- Models s_min from the scores-analyzer section of Final_Project.py. -/
def s_min (values : List Int) : Int :=
  match values with
  | [] => 0
  | v :: vs => (v :: vs).foldl (fun m x => if x < m then x else m) v

/-- Models s_max from the scores-analyzer section of Final_Project.py. -/
def s_max (values : List Int) : Int :=
  match values with
  | [] => 0
  | v :: vs => (v :: vs).foldl (fun m x => if x > m then x else m) v

/-- A CRUD step on the library store: the menu issues one add_book or
delete_book call per selection. -/
inductive LibOp where
  | add (title author category status : String)
  | del (bid : Int)

/-- The store resulting from one CRUD step (a failed step leaves it as is). -/
def applyOp (books : List Book) : LibOp → List Book
  | .add t a c s => (add_book books t a c s).1
  | .del b => (delete_book books b).1

/-- The store after a sequence of add and delete operations. -/
def applyOps (books : List Book) (ops : List LibOp) : List Book :=
  ops.foldl applyOp books

end FP

namespace AOL

/-- One row of the student-performance dataset (AOL_Unit2.py, class
StudentRecord). -/
structure StudentRecord where
  student_id : Int
  gender : String
  race_ethnicity : String
  parental_education : String
  lunch : String
  prep_course : String
  math_score : Int
  reading_score : Int
  writing_score : Int
deriving DecidableEq

/-- The eight non-identifier fields of a StudentRecord, used to compare
records up to id renumbering. -/
structure StudentFields where
  gender : String
  race_ethnicity : String
  parental_education : String
  lunch : String
  prep_course : String
  math_score : Int
  reading_score : Int
  writing_score : Int
deriving DecidableEq

/-- The non-id fields of a record. -/
def fieldsOf (r : StudentRecord) : StudentFields :=
  ⟨r.gender, r.race_ethnicity, r.parental_education, r.lunch, r.prep_course,
    r.math_score, r.reading_score, r.writing_score⟩

/-- A record with the given generated id and the given field values. -/
def withId (sid : Int) (f : StudentFields) : StudentRecord :=
  ⟨sid, f.gender, f.race_ethnicity, f.parental_education, f.lunch, f.prep_course,
    f.math_score, f.reading_score, f.writing_score⟩

/-- Models REQUIRED_COLS (a set in the source; listed here). -/
def REQUIRED_COLS : List String :=
  ["gender", "race/ethnicity", "parental level of education", "lunch",
   "test preparation course", "math score", "reading score", "writing score"]

/-- Models the fieldnames list of save_to_csv, which fixes the cell order of
every written row. -/
def SAVE_FIELDNAMES : List String :=
  ["student_id", "gender", "race/ethnicity", "parental level of education",
   "lunch", "test preparation course", "math score", "reading score",
   "writing score"]

/-- Models StudentRecord.to_row as the cell list in SAVE_FIELDNAMES order
(csv.DictWriter serializes the dict in fieldnames order, applying str to the
integer entries). -/
def to_row (r : StudentRecord) : List String :=
  [toString r.student_id, r.gender, r.race_ethnicity, r.parental_education,
   r.lunch, r.prep_course, toString r.math_score, toString r.reading_score,
   toString r.writing_score]

/-- Models save_to_csv: header row, then one row per record in store order. -/
def save_to_csv (records : List StudentRecord) : CsvFile :=
  { header := SAVE_FIELDNAMES, rows := records.map to_row }

/-- Models the per-row try block of load_from_csv: strip the text cells, parse
the three scores with int, and reject (skip) the row on a parse failure, an
empty text field, or a score outside 0..100. -/
def decode_row (header vals : List String) : Option StudentFields :=
  let gender := pyStrip ((rowGet header vals "gender").getD "")
  let race := pyStrip ((rowGet header vals "race/ethnicity").getD "")
  let parent_edu := pyStrip ((rowGet header vals "parental level of education").getD "")
  let lunch := pyStrip ((rowGet header vals "lunch").getD "")
  let prep := pyStrip ((rowGet header vals "test preparation course").getD "")
  let m_raw := pyStrip ((rowGet header vals "math score").getD "")
  let r_raw := pyStrip ((rowGet header vals "reading score").getD "")
  let w_raw := pyStrip ((rowGet header vals "writing score").getD "")
  match pyInt? m_raw, pyInt? r_raw, pyInt? w_raw with
  | some m, some r, some w =>
    if gender = "" ∨ race = "" ∨ parent_edu = "" ∨ lunch = "" ∨ prep = "" then none
    else if ¬ (0 ≤ m ∧ m ≤ 100 ∧ 0 ≤ r ∧ r ≤ 100 ∧ 0 ≤ w ∧ w ≤ 100) then none
    else some ⟨gender, race, parent_edu, lunch, prep, m, r, w⟩
  | _, _, _ => none

/-- Models the row loop of load_from_csv: the student_id counter starts at 1
and advances only when a row is appended; skipped rows do not consume an id. -/
def load_rows (header : List String) : List (List String) → Int → List StudentRecord
  | [], _ => []
  | v :: vs, sid =>
    match decode_row header v with
    | some f => withId sid f :: load_rows header vs (sid + 1)
    | none => load_rows header vs sid

/-- Models load_from_csv: empty header or missing required columns (compared
against the stripped nonempty header names) yield zero records; otherwise the
rows are decoded with sequentially generated ids. -/
def load_from_csv (f : CsvFile) : List StudentRecord :=
  if f.header = [] then []
  else if REQUIRED_COLS.all
      (fun c => decide (c ∈ (f.header.filter (fun h => decide (h ≠ ""))).map pyStrip)) then
    load_rows f.header f.rows 1
  else []

/-- Index loop of linear_search_by_id, carrying the running index. -/
def lsearch_go (target : Int) : List StudentRecord → Int → Int
  | [], _ => -1
  | r :: rs, i => if r.student_id = target then i else lsearch_go target rs (i + 1)

/-- Models linear_search_by_id: the index of the first record with the given
id, or -1. -/
def linear_search_by_id (records : List StudentRecord) (target : Int) : Int :=
  lsearch_go target records 0

/-- Models next_available_id: 1 on an empty list, else the maximum id plus
one. -/
def next_available_id (records : List StudentRecord) : Int :=
  match records with
  | [] => 1
  | r :: rs => (rs.foldl (fun m x => max m x.student_id) r.student_id) + 1

/-- Models the optional_text helper of update_record: a blank entry keeps the
current value, anything else (stripped) replaces it. -/
def optional_text (raw : String) (current : String) : String :=
  let r := pyStrip raw
  if r ≠ "" then r else current

/-- Models the optional_score helper of update_record: blank keeps the current
value; a non-integer or out-of-range entry is reported and also keeps the
current value; only a valid 0..100 integer replaces it. -/
def optional_score (raw : String) (current : Int) : Int :=
  let r := pyStrip raw
  if r = "" then current
  else
    match pyInt? r with
    | some v => if 0 ≤ v ∧ v ≤ 100 then v else current
    | none => current

/-- The field assignments of update_record: every field of the located record
is set from its own raw input alone, through optional_text or
optional_score. -/
def apply_update (rec : StudentRecord)
    (gIn raceIn eduIn lunchIn prepIn mIn rdIn wIn : String) : StudentRecord :=
  { rec with
    gender := optional_text gIn rec.gender,
    race_ethnicity := optional_text raceIn rec.race_ethnicity,
    parental_education := optional_text eduIn rec.parental_education,
    lunch := optional_text lunchIn rec.lunch,
    prep_course := optional_text prepIn rec.prep_course,
    math_score := optional_score mIn rec.math_score,
    reading_score := optional_score rdIn rec.reading_score,
    writing_score := optional_score wIn rec.writing_score }

/-- Models update_record: locate the record by id with the manual linear
search; if absent, report and leave the list unchanged; otherwise mutate the
located record field by field. -/
def update_record (records : List StudentRecord) (target : Int)
    (gIn raceIn eduIn lunchIn prepIn mIn rdIn wIn : String) : List StudentRecord :=
  let idx := linear_search_by_id records target
  if idx = -1 then records
  else
    match records[idx.toNat]? with
    | none => records
    | some rec =>
      records.set idx.toNat (apply_update rec gIn raceIn eduIn lunchIn prepIn mIn rdIn wIn)

/-- Models mean: the float nan returned on an empty list is the none
sentinel; otherwise the exact quotient over ℚ. -/
def mean (values : List Int) : Option ℚ :=
  if values = [] then none
  else some ((values.map (fun x => (x : ℚ))).sum / (values.length : ℚ))

/-- Models stdev up to the final math.sqrt: stdev values =
sqrt (stdev_sq values); none models the nan sentinel on an empty list. -/
def stdev_sq (values : List Int) : Option ℚ :=
  if values = [] then none
  else
    match mean values with
    | some m => some ((values.map (fun x => ((x : ℚ) - m) ^ 2)).sum / (values.length : ℚ))
    | none => none

end AOL

/-- The inner while loop of insertion_sort (AOL_Unit2.py) and of
insertion_sort_by_title (Final_Project.py): the sorted part left of the
current element is walked from its right end; each element satisfying the
shift condition is moved one slot right (collected in moved, which sits right
of cur in the result), and the walk stops at the first element that does not,
placing cur in the gap.  The first argument is the not-yet-walked part of the
sorted part, reversed. -/
def shiftLoop (shift : α → Bool) (cur : α) : List α → List α → List α
  | [], moved => cur :: moved
  | x :: revRest, moved =>
    if shift x then shiftLoop shift cur revRest (x :: moved)
    else revRest.reverse ++ x :: cur :: moved

/-- One outer-loop step of the manual insertion sort: insert cur into the
already sorted list acc by the backwards shift walk. -/
def insertStep (shift : α → Bool) (cur : α) (acc : List α) : List α :=
  shiftLoop shift cur acc.reverse []

/-- Models insertion_sort (AOL_Unit2.py): in ascending mode elements whose key
strictly exceeds the current key are shifted; in reverse mode elements whose
key is strictly below it are shifted.  The in-place loop over indices 1..n-1
is rendered as a left fold whose accumulator is the sorted part. -/
def insertion_sort {α : Type} {K : Type} [LinearOrder K]
    (key_fn : α → K) (reverse : Bool) (l : List α) : List α :=
  l.foldl (fun acc cur =>
    insertStep
      (fun x => if reverse then decide (key_fn x < key_fn cur)
                else decide (key_fn x > key_fn cur)) cur acc) []

/-- Models the Python built-in sorted with a key function and a reverse flag:
a stable general-purpose comparison sort; reverse flips the comparison, not
the result. -/
def sorted_builtin {α : Type} {K : Type} [LinearOrder K]
    (key_fn : α → K) (reverse : Bool) (l : List α) : List α :=
  l.mergeSort (fun a b =>
    if reverse then decide (key_fn b ≤ key_fn a) else decide (key_fn a ≤ key_fn b))

namespace FP

/-- Models LibrarySystem.insertion_sort_by_title: the manual insertion sort on
the lowercased title key, ascending. -/
def insertion_sort_by_title (books : List Book) : List Book :=
  insertion_sort (fun b => (pyLower b.title).data) false books

/-- Models LibrarySystem.sort_by_id_builtin: the platform sort on the id key,
ascending. -/
def sort_by_id_builtin (books : List Book) : List Book :=
  sorted_builtin (fun b => b.bid) false books

end FP

/-- The id sequence start, start+1, ..., start+n-1 that a load generates. -/
def seqIds (start : Int) (n : Nat) : List Int :=
  (List.range n).map (fun (k : Nat) => start + (k : Int))

namespace AOL

/-- Records carrying sequentially generated ids starting at sid, as built by
the row loop of load_from_csv. -/
def number_from (sid : Int) : List StudentFields → List StudentRecord
  | [] => []
  | f :: fs => withId sid f :: number_from (sid + 1) fs

/-- The Store invariant of the student program: every record reachable through
load_from_csv, add_record or update_record has stripped nonempty text fields
and scores within 0..100. -/
def WFRecord (r : StudentRecord) : Prop :=
  pyStrip r.gender = r.gender ∧ r.gender ≠ "" ∧
  pyStrip r.race_ethnicity = r.race_ethnicity ∧ r.race_ethnicity ≠ "" ∧
  pyStrip r.parental_education = r.parental_education ∧ r.parental_education ≠ "" ∧
  pyStrip r.lunch = r.lunch ∧ r.lunch ≠ "" ∧
  pyStrip r.prep_course = r.prep_course ∧ r.prep_course ≠ "" ∧
  0 ≤ r.math_score ∧ r.math_score ≤ 100 ∧
  0 ≤ r.reading_score ∧ r.reading_score ≤ 100 ∧
  0 ≤ r.writing_score ∧ r.writing_score ≤ 100

end AOL

/-- A concrete one-book library store used by concrete instances. -/
def demoLib : List FP.Book :=
  [⟨1, "Old", "OldAuth", "Cat", "available"⟩]

/-- A concrete CSV input whose header carries every required non-id column of
the library program but no bid column. -/
def demoNoBid : CsvFile :=
  ⟨["title", "author", "category", "status"], [["T", "A", "C", "available"]]⟩

/-- A concrete two-record student store used by concrete instances. -/
def demoStudents : List AOL.StudentRecord :=
  [⟨5, "male", "group A", "some college", "standard", "none", 72, 80, 90⟩,
   ⟨9, "female", "group B", "masters degree", "standard", "completed", 88, 95, 93⟩]

/-! Theorems.  Each claim of the specification is settled below; helper
lemmas carry the aux prefix. -/

/-- Claim C7: the aggregate statistics mean, standard deviation (population
formula), min and max never raise; on an empty input each returns its defined
sentinel (the nan of mean and stdev is the none value, s_min and s_max return
0), and on nonempty input the radicand handed to math.sqrt by stdev is
exactly the average of the squared deviations from the mean. -/
theorem c7_stats_total :
    (AOL.mean [] = none ∧ AOL.stdev_sq [] = none ∧ FP.s_min [] = 0 ∧ FP.s_max [] = 0) ∧
    (∀ values : List Int, values ≠ [] →
      ∃ m, AOL.mean values = some m ∧
        m = (values.map (fun x => (x : ℚ))).sum / (values.length : ℚ) ∧
        AOL.stdev_sq values
          = some ((values.map (fun x => ((x : ℚ) - m) ^ 2)).sum / (values.length : ℚ))) := by
  refine ⟨⟨rfl, rfl, rfl, rfl⟩, ?_⟩
  intro values h
  refine ⟨(values.map (fun x => (x : ℚ))).sum / (values.length : ℚ), ?_, rfl, ?_⟩
  · simp [AOL.mean, h]
  · simp [AOL.stdev_sq, AOL.mean, h]

/-- Concrete instance of c7_stats_total on the nonempty list [70, 90]. -/
theorem c7_stats_total_witness :
    ([70, 90] : List Int) ≠ [] ∧
    ∃ m, AOL.mean [70, 90] = some m ∧
      m = (([70, 90] : List Int).map (fun x => (x : ℚ))).sum / (([70, 90] : List Int).length : ℚ) ∧
      AOL.stdev_sq [70, 90]
        = some ((([70, 90] : List Int).map (fun x => ((x : ℚ) - m) ^ 2)).sum
            / (([70, 90] : List Int).length : ℚ)) :=
  ⟨by decide, c7_stats_total.2 [70, 90] (by decide)⟩

/-- Claim C8: an add whose input has an invalid field (empty required text
after cleaning, or a status that does not normalize to a valid one) fails
with the validation error and leaves the store completely unchanged. -/
theorem c8_add_invalid_unchanged (books : List FP.Book) (t a c s : String)
    (h : FP._clean_text t = "" ∨ FP._clean_text a = "" ∨ FP._clean_text c = "" ∨
      ¬ FP._is_valid_status (FP._normalize_status s)) :
    (FP.add_book books t a c s).1 = books ∧
      ∃ msg, (FP.add_book books t a c s).2 = .error msg := by
  unfold FP.add_book
  dsimp only
  split_ifs with h1 h2
  · exact ⟨rfl, _, rfl⟩
  · exfalso
    rcases h with h | h | h | h
    · exact h1 (Or.inl h)
    · exact h1 (Or.inr (Or.inl h))
    · exact h1 (Or.inr (Or.inr h))
    · exact h h2
  · exact ⟨rfl, _, rfl⟩

/-- Concrete instance of c8_add_invalid_unchanged: adding with a blank title
to the demo store is rejected and the store is unchanged. -/
theorem c8_add_invalid_unchanged_witness :
    (FP._clean_text "  " = "" ∨ FP._clean_text "Auth" = "" ∨ FP._clean_text "Cat" = "" ∨
      ¬ FP._is_valid_status (FP._normalize_status "available")) ∧
    (FP.add_book demoLib "  " "Auth" "Cat" "available").1 = demoLib ∧
      ∃ msg, (FP.add_book demoLib "  " "Auth" "Cat" "available").2 = .error msg :=
  ⟨Or.inl (by decide), c8_add_invalid_unchanged demoLib "  " "Auth" "Cat" "available" (Or.inl (by decide))⟩

/-- A status accepted by _is_valid_status is one of the two canonical
values. -/
theorem aux_valid_status_cases {s : String} (h : FP._is_valid_status s) :
    s = "issued" ∨ s = "available" := by
  simpa [FP._is_valid_status, Bool.or_eq_true, decide_eq_true_iff] using h

/-- Claim C10: the library catalog silently normalizes status synonyms at its
public interface.  An input whose cleaned lowercase form is issue is stored
as issued; avail, in and in stock are stored as available; add_book and
update_book accept synonyms and store only the canonical value, and any
status whose normalized form is not exactly issued or available is rejected
with an error, leaving the store unchanged. -/
theorem c10_status_normalization :
    (∀ s, pyLower (FP._clean_text s) = "issue" → FP._normalize_status s = "issued") ∧
    (∀ s, pyLower (FP._clean_text s) = "avail" ∨ pyLower (FP._clean_text s) = "in" ∨
        pyLower (FP._clean_text s) = "in stock" → FP._normalize_status s = "available") ∧
    (∀ books t a c s, FP._clean_text t ≠ "" → FP._clean_text a ≠ "" → FP._clean_text c ≠ "" →
      FP._is_valid_status (FP._normalize_status s) →
      FP.add_book books t a c s =
        (books ++ [⟨FP._next_id books, FP._clean_text t, FP._clean_text a, FP._clean_text c,
            FP._normalize_status s⟩],
         .ok ⟨FP._next_id books, FP._clean_text t, FP._clean_text a, FP._clean_text c,
            FP._normalize_status s⟩) ∧
      (FP._normalize_status s = "issued" ∨ FP._normalize_status s = "available")) ∧
    (∀ books t a c s, ¬ FP._is_valid_status (FP._normalize_status s) →
      (FP.add_book books t a c s).1 = books ∧
        ∃ msg, (FP.add_book books t a c s).2 = .error msg) ∧
    (∀ books bid t a c s i book, FP.findIndexById books bid = some i → books[i]? = some book →
      FP._clean_text t ≠ "" → FP._clean_text a ≠ "" → FP._clean_text c ≠ "" →
      FP._is_valid_status (FP._normalize_status s) →
      FP.update_book books bid t a c s =
        (books.set i
          { book with
            title := FP._clean_text t
            author := FP._clean_text a
            category := FP._clean_text c
            status := FP._normalize_status s }, .ok ())) ∧
    (∀ books bid t a c s, ¬ FP._is_valid_status (FP._normalize_status s) →
      (FP.update_book books bid t a c s).1 = books) := by
  refine ⟨?_, ?_, ?_, ?_, ?_, ?_⟩
  · intro s h
    simp [FP._normalize_status, h]
  · intro s h
    rcases h with h | h | h <;> simp [FP._normalize_status, h]
  · intro books t a c s ht ha hc hv
    unfold FP.add_book
    dsimp only
    rw [if_neg (by simp [ht, ha, hc]), if_neg (by simp [hv])]
    exact ⟨rfl, aux_valid_status_cases hv⟩
  · intro books t a c s hv
    unfold FP.add_book
    dsimp only
    by_cases h1 : FP._clean_text t = "" ∨ FP._clean_text a = "" ∨ FP._clean_text c = ""
    · rw [if_pos h1]
      exact ⟨rfl, _, rfl⟩
    · rw [if_neg h1, if_pos hv]
      exact ⟨rfl, _, rfl⟩
  · intro books bid t a c s i book hi hb ht ha hc hv
    unfold FP.update_book
    rw [hi]
    dsimp only
    rw [hb]
    dsimp only
    rw [if_neg (by simp [ht, ha, hc]), if_neg (by simp [hv])]
  · intro books bid t a c s hv
    unfold FP.update_book
    cases hidx : FP.findIndexById books bid with
    | none => rfl
    | some i =>
      dsimp only
      cases hb : books[i]? with
      | none => rfl
      | some book =>
        dsimp only
        by_cases h1 : FP._clean_text t = "" ∨ FP._clean_text a = "" ∨ FP._clean_text c = ""
        · rw [if_pos h1]
        · rw [if_neg h1, if_pos hv]

/-- Concrete instance of c10_status_normalization: adding with the status
synonym Issue (with stray spacing and case) stores the canonical issued. -/
theorem c10_status_normalization_witness :
    FP._clean_text "T" ≠ "" ∧ FP._clean_text "A" ≠ "" ∧ FP._clean_text "C" ≠ "" ∧
    FP._is_valid_status (FP._normalize_status " Issue ") = true ∧
    FP.add_book [] "T" "A" "C" " Issue " =
      ([⟨FP._next_id [], FP._clean_text "T", FP._clean_text "A", FP._clean_text "C",
          FP._normalize_status " Issue "⟩],
       .ok ⟨FP._next_id [], FP._clean_text "T", FP._clean_text "A", FP._clean_text "C",
          FP._normalize_status " Issue "⟩) :=
  ⟨by decide, by decide, by decide, by decide,
    (c10_status_normalization.2.2.1 [] "T" "A" "C" " Issue "
      (by decide) (by decide) (by decide) (by decide)).1⟩

/-- Claim C2 counterexample: in the library program, an update of book 1 that
supplies an invalid title (blank after cleaning) together with a valid new
author NewAuth fails as a whole — the record keeps its previous author
OldAuth, so the valid supplied field is NOT applied, contradicting the claim
that an invalid field never blocks the update of the other fields. -/
theorem c2_counterexample :
    (FP.update_book demoLib 1 " " "NewAuth" "Cat" "available").1 = demoLib ∧
    (FP.update_book demoLib 1 " " "NewAuth" "Cat" "available").2
      = .error "Title/author/category cannot be empty." ∧
    ((FP.update_book demoLib 1 " " "NewAuth" "Cat" "available").1.map (·.author))
      = ["OldAuth"] := by
  refine ⟨rfl, rfl, rfl⟩

/-- Claim C2 as amended: in the student program update_record, every field of
the located record is set from its own supplied input alone (optional_text or
optional_score), a blank input keeps the current value, an invalid supplied
score (non-integer or out of range) keeps the current value while a valid one
is applied, and a nonempty text input is applied — so an invalid field never
blocks the other fields there; in the library program update_book, by
contrast, any invalid field aborts the whole update with a validation error
and the store is unchanged. -/
theorem c2_amended_update :
    (∀ (rec : AOL.StudentRecord) gIn raceIn eduIn lunchIn prepIn mIn rdIn wIn,
      (AOL.apply_update rec gIn raceIn eduIn lunchIn prepIn mIn rdIn wIn).gender
          = AOL.optional_text gIn rec.gender ∧
      (AOL.apply_update rec gIn raceIn eduIn lunchIn prepIn mIn rdIn wIn).race_ethnicity
          = AOL.optional_text raceIn rec.race_ethnicity ∧
      (AOL.apply_update rec gIn raceIn eduIn lunchIn prepIn mIn rdIn wIn).parental_education
          = AOL.optional_text eduIn rec.parental_education ∧
      (AOL.apply_update rec gIn raceIn eduIn lunchIn prepIn mIn rdIn wIn).lunch
          = AOL.optional_text lunchIn rec.lunch ∧
      (AOL.apply_update rec gIn raceIn eduIn lunchIn prepIn mIn rdIn wIn).prep_course
          = AOL.optional_text prepIn rec.prep_course ∧
      (AOL.apply_update rec gIn raceIn eduIn lunchIn prepIn mIn rdIn wIn).math_score
          = AOL.optional_score mIn rec.math_score ∧
      (AOL.apply_update rec gIn raceIn eduIn lunchIn prepIn mIn rdIn wIn).reading_score
          = AOL.optional_score rdIn rec.reading_score ∧
      (AOL.apply_update rec gIn raceIn eduIn lunchIn prepIn mIn rdIn wIn).writing_score
          = AOL.optional_score wIn rec.writing_score) ∧
    (∀ raw cur, pyStrip raw = "" → AOL.optional_score raw cur = cur) ∧
    (∀ raw cur v, pyInt? (pyStrip raw) = some v → 0 ≤ v → v ≤ 100 →
      AOL.optional_score raw cur = v) ∧
    (∀ raw cur v, pyInt? (pyStrip raw) = some v → ¬ (0 ≤ v ∧ v ≤ 100) →
      AOL.optional_score raw cur = cur) ∧
    (∀ raw cur, pyInt? (pyStrip raw) = none → AOL.optional_score raw cur = cur) ∧
    (∀ raw cur, pyStrip raw ≠ "" → AOL.optional_text raw cur = pyStrip raw) ∧
    (∀ raw cur, pyStrip raw = "" → AOL.optional_text raw cur = cur) ∧
    (∀ books bid t a c st,
      (FP._clean_text t = "" ∨ FP._clean_text a = "" ∨ FP._clean_text c = "" ∨
        ¬ FP._is_valid_status (FP._normalize_status st)) →
      (FP.update_book books bid t a c st).1 = books ∧
        ∃ msg, (FP.update_book books bid t a c st).2 = .error msg) := by
  refine ⟨?_, ?_, ?_, ?_, ?_, ?_, ?_, ?_⟩
  · intro rec gIn raceIn eduIn lunchIn prepIn mIn rdIn wIn
    exact ⟨rfl, rfl, rfl, rfl, rfl, rfl, rfl, rfl⟩
  · intro raw cur h
    unfold AOL.optional_score
    rw [if_pos h]
  · intro raw cur v hsome h0 h100
    unfold AOL.optional_score
    dsimp only
    have hne : pyStrip raw ≠ "" := by
      intro he
      rw [he] at hsome
      exact Option.noConfusion hsome
    rw [if_neg hne, hsome]
    dsimp only
    rw [if_pos ⟨h0, h100⟩]
  · intro raw cur v hsome hrange
    unfold AOL.optional_score
    dsimp only
    have hne : pyStrip raw ≠ "" := by
      intro he
      rw [he] at hsome
      exact Option.noConfusion hsome
    rw [if_neg hne, hsome]
    dsimp only
    rw [if_neg hrange]
  · intro raw cur hnone
    unfold AOL.optional_score
    dsimp only
    by_cases he : pyStrip raw = ""
    · rw [if_pos he]
    · rw [if_neg he, hnone]
  · intro raw cur h
    unfold AOL.optional_text
    rw [if_pos h]
  · intro raw cur h
    unfold AOL.optional_text
    dsimp only
    rw [if_neg (by simp [h])]
  · intro books bid t a c st h
    unfold FP.update_book
    cases hidx : FP.findIndexById books bid with
    | none => exact ⟨rfl, _, rfl⟩
    | some i =>
      dsimp only
      cases hb : books[i]? with
      | none => exact ⟨rfl, _, rfl⟩
      | some book =>
        dsimp only
        by_cases h1 : FP._clean_text t = "" ∨ FP._clean_text a = "" ∨ FP._clean_text c = ""
        · rw [if_pos h1]
          exact ⟨rfl, _, rfl⟩
        · have hv : ¬ FP._is_valid_status (FP._normalize_status st) := by
            rcases h with h | h | h | h
            · exact absurd (Or.inl h) h1
            · exact absurd (Or.inr (Or.inl h)) h1
            · exact absurd (Or.inr (Or.inr h)) h1
            · exact h
          rw [if_neg h1, if_pos hv]
          exact ⟨rfl, _, rfl⟩

/-- Concrete instance of c2_amended_update: an out-of-range score input 150
keeps the old value 70, a blank text input keeps the old value, and a library
update with one invalid field leaves the store unchanged. -/
theorem c2_amended_update_witness :
    (pyInt? (pyStrip "150") = some 150 ∧ ¬ ((0 : Int) ≤ 150 ∧ (150 : Int) ≤ 100) ∧
      AOL.optional_score "150" 70 = 70) ∧
    (pyStrip "" = "" ∧ AOL.optional_text "" "keep" = "keep") ∧
    ((FP.update_book demoLib 1 "" "X" "Y" "available").1 = demoLib ∧
      ∃ msg, (FP.update_book demoLib 1 "" "X" "Y" "available").2 = .error msg) :=
  ⟨⟨by decide, by decide, c2_amended_update.2.2.2.1 "150" 70 150 (by decide) (by decide)⟩,
   ⟨by decide, c2_amended_update.2.2.2.2.2.2.1 "" "keep" (by decide)⟩,
   c2_amended_update.2.2.2.2.2.2.2 demoLib 1 "" "X" "Y" "available" (Or.inl (by decide))⟩

/-- A successful manual linear search returns the first record with the
target id. -/
theorem aux_find_some : ∀ (books : List FP.Book) (x : Int) (b : FP.Book),
    FP._find_by_id_linear books x = some b →
    b.bid = x ∧ ∃ i : Nat, books[i]? = some b ∧
      ∀ j, j < i → ∀ c : FP.Book, books[j]? = some c → c.bid ≠ x := by
  intro books
  induction books with
  | nil => intro x b h; exact Option.noConfusion h
  | cons b0 bs ih =>
    intro x b h
    unfold FP._find_by_id_linear at h
    by_cases h0 : b0.bid = x
    · rw [if_pos h0] at h
      cases h
      exact ⟨h0, 0, by simp, fun j hj => absurd hj (Nat.not_lt_zero j)⟩
    · rw [if_neg h0] at h
      obtain ⟨hb, i, hi, hfirst⟩ := ih x b h
      refine ⟨hb, i + 1, by simp only [List.getElem?_cons_succ]; exact hi, ?_⟩
      intro j hj c hc
      cases j with
      | zero =>
        simp only [List.getElem?_cons_zero, Option.some.injEq] at hc
        rw [← hc]
        exact h0
      | succ k =>
        simp only [List.getElem?_cons_succ] at hc
        exact hfirst k (Nat.lt_of_succ_lt_succ hj) c hc

/-- A failed manual linear search means no record has the target id. -/
theorem aux_find_none : ∀ (books : List FP.Book) (x : Int),
    FP._find_by_id_linear books x = none → ∀ b ∈ books, b.bid ≠ x := by
  intro books
  induction books with
  | nil => intro x _ b hb; exact absurd hb (List.not_mem_nil b)
  | cons b0 bs ih =>
    intro x h b hb
    unfold FP._find_by_id_linear at h
    by_cases h0 : b0.bid = x
    · rw [if_pos h0] at h; exact Option.noConfusion h
    · rw [if_neg h0] at h
      rcases List.mem_cons.1 hb with hb | hb
      · rw [hb]; exact h0
      · exact ih x h b hb

/-- Unfolding equation of the search loop on a nonempty list. -/
theorem aux_lsearch_go_cons (target : Int) (r : AOL.StudentRecord)
    (rs : List AOL.StudentRecord) (i : Int) :
    AOL.lsearch_go target (r :: rs) i
      = if r.student_id = target then i else AOL.lsearch_go target rs (i + 1) := rfl

/-- The index-carrying loop of linear_search_by_id either reports -1 with no
record matching, or stops at the first matching offset. -/
theorem aux_lsearch_spec (target : Int) :
    ∀ (l : List AOL.StudentRecord) (start : Int),
      (AOL.lsearch_go target l start = -1 ∧ ∀ r ∈ l, r.student_id ≠ target) ∨
      (∃ k : Nat, AOL.lsearch_go target l start = start + k ∧
        ∃ r, l[k]? = some r ∧ r.student_id = target) := by
  intro l
  induction l with
  | nil => intro start; exact Or.inl ⟨rfl, by simp⟩
  | cons r rs ih =>
    intro start
    by_cases h : r.student_id = target
    · refine Or.inr ⟨0, ?_, r, by simp, h⟩
      rw [aux_lsearch_go_cons, if_pos h]
      omega
    · have hgo : AOL.lsearch_go target (r :: rs) start = AOL.lsearch_go target rs (start + 1) := by
        rw [aux_lsearch_go_cons, if_neg h]
      rcases ih (start + 1) with ⟨h1, h2⟩ | ⟨k, hk, rr, hrr, hid⟩
      · refine Or.inl ⟨by rw [hgo]; exact h1, ?_⟩
        intro r2 hr2
        rcases List.mem_cons.1 hr2 with hr2 | hr2
        · rw [hr2]; exact h
        · exact h2 r2 hr2
      · refine Or.inr ⟨k + 1, ?_, rr, by simpa using hrr, hid⟩
        rw [hgo, hk]
        push_cast
        ring

/-- Claim C9: for every store and id, the manual linear search returns the
record with that id iff one exists, scanning first to last and returning the
first match, and returns the distinguished not-found result (none, or -1 in
the index-returning student version) otherwise; being a pure function of the
list, it never mutates the store. -/
theorem c9_find_by_id :
    (∀ (books : List FP.Book) (x : Int),
      ((∃ b, FP._find_by_id_linear books x = some b) ↔ ∃ b ∈ books, b.bid = x) ∧
      (∀ b, FP._find_by_id_linear books x = some b →
        b.bid = x ∧ ∃ i : Nat, books[i]? = some b ∧
          ∀ j, j < i → ∀ c : FP.Book, books[j]? = some c → c.bid ≠ x) ∧
      (FP._find_by_id_linear books x = none → ∀ b ∈ books, b.bid ≠ x)) ∧
    (∀ (records : List AOL.StudentRecord) (target : Int),
      (AOL.linear_search_by_id records target = -1 ↔
        ∀ r ∈ records, r.student_id ≠ target) ∧
      (∀ i : Int, AOL.linear_search_by_id records target = i → i ≠ -1 →
        0 ≤ i ∧ ∃ r, records[i.toNat]? = some r ∧ r.student_id = target)) := by
  constructor
  · intro books x
    refine ⟨⟨?_, ?_⟩, aux_find_some books x, aux_find_none books x⟩
    · rintro ⟨b, hb⟩
      obtain ⟨hbid, i, hi, _⟩ := aux_find_some books x b hb
      exact ⟨b, List.getElem?_mem hi, hbid⟩
    · rintro ⟨b, hmem, hbid⟩
      cases hf : FP._find_by_id_linear books x with
      | none => exact absurd hbid (aux_find_none books x hf b hmem)
      | some b2 => exact ⟨b2, rfl⟩
  · intro records target
    constructor
    · constructor
      · intro h1
        rcases aux_lsearch_spec target records 0 with ⟨_, h2⟩ | ⟨k, hk, r, _, hid⟩
        · exact h2
        · rw [AOL.linear_search_by_id] at h1
          rw [h1] at hk
          omega
      · intro hno
        rcases aux_lsearch_spec target records 0 with ⟨h1, _⟩ | ⟨k, _, r, hr, hid⟩
        · exact h1
        · exact absurd hid (hno r (List.getElem?_mem hr))
    · intro i hi hne
      rcases aux_lsearch_spec target records 0 with ⟨h1, _⟩ | ⟨k, hk, r, hr, hid⟩
      · rw [AOL.linear_search_by_id] at hi
        rw [hi] at h1
        exact absurd h1 hne
      · rw [AOL.linear_search_by_id] at hi
        rw [hi] at hk
        have hik : i = (k : Int) := by omega
        refine ⟨by omega, r, ?_, hid⟩
        rw [hik]
        simpa using hr

/-- Concrete instance of c9_find_by_id: id 1 is present in the demo library
store, so the search finds a record; id 2 of demoStudents is absent, so the
student search reports -1. -/
theorem c9_find_by_id_witness :
    (∃ b ∈ demoLib, b.bid = 1) ∧ (∃ b, FP._find_by_id_linear demoLib 1 = some b) ∧
    (∀ r ∈ demoStudents, r.student_id ≠ 2) ∧ AOL.linear_search_by_id demoStudents 2 = -1 :=
  ⟨by decide, (c9_find_by_id.1 demoLib 1).1.mpr (by decide),
   by decide, (c9_find_by_id.2 demoStudents 2).1.mpr (by decide)⟩

/-- The running maximum in _next_id never drops below its initial value. -/
theorem aux_le_foldl_max (l : List FP.Book) :
    ∀ a : Int, a ≤ l.foldl (fun m x => max m x.bid) a := by
  induction l with
  | nil => intro a; exact le_refl a
  | cons b bs ih =>
    intro a
    exact le_trans (le_max_left a b.bid) (ih (max a b.bid))

/-- Every listed id is bounded by the running maximum of _next_id. -/
theorem aux_mem_le_foldl_max (l : List FP.Book) :
    ∀ (a : Int) (x : FP.Book), x ∈ l → x.bid ≤ l.foldl (fun m y => max m y.bid) a := by
  induction l with
  | nil => intro a x hx; exact absurd hx (List.not_mem_nil x)
  | cons b bs ih =>
    intro a x hx
    rcases List.mem_cons.1 hx with hx | hx
    · rw [hx]
      exact le_trans (le_max_right a b.bid) (aux_le_foldl_max bs (max a b.bid))
    · exact ih (max a b.bid) x hx

/-- The id generated by _next_id strictly exceeds every id currently in the
store. -/
theorem aux_bid_lt_next : ∀ (s : List FP.Book), ∀ b ∈ s, b.bid < FP._next_id s := by
  intro s b hb
  cases s with
  | nil => exact absurd hb (List.not_mem_nil b)
  | cons b0 bs =>
    unfold FP._next_id
    rcases List.mem_cons.1 hb with hb | hb
    · rw [hb]
      exact Int.lt_add_one_of_le (aux_le_foldl_max bs b0.bid)
    · exact Int.lt_add_one_of_le (aux_mem_le_foldl_max bs b0.bid b hb)

/-- One add or delete step preserves pairwise distinctness of the stored
ids. -/
theorem aux_applyOp_nodup (s : List FP.Book) (op : FP.LibOp)
    (h : (s.map (·.bid)).Nodup) : ((FP.applyOp s op).map (·.bid)).Nodup := by
  cases op with
  | add t a c st =>
    show (((FP.add_book s t a c st).1).map (·.bid)).Nodup
    unfold FP.add_book
    dsimp only
    split_ifs with h1 h2
    · exact h
    · dsimp only
      rw [List.map_append]
      rw [List.nodup_append]
      refine ⟨h, List.nodup_singleton _, ?_⟩
      intro x hx hx2
      simp only [List.map_cons, List.map_nil, List.mem_singleton] at hx2
      obtain ⟨b, hb, hbid⟩ := List.mem_map.1 hx
      have := aux_bid_lt_next s b hb
      omega
    · exact h
  | del bid =>
    show (((FP.delete_book s bid).1).map (·.bid)).Nodup
    unfold FP.delete_book
    cases hidx : FP.findIndexById s bid with
    | none => exact h
    | some i =>
      dsimp only
      exact List.Nodup.sublist (List.Sublist.map _ (List.eraseIdx_sublist s i)) h

/-- Claim C1 counterexample: from the empty store, two adds assign ids 1 and
2; after deleting id 2 the next generated id is 2 again, and a further add
stores a record whose id 2 had already appeared in the store's lifetime — so
a newly added id does not strictly exceed every id ever seen, and deleted ids
can be reused. -/
theorem c1_counterexample :
    ((FP.applyOps [] [.add "A" "B" "C" "available", .add "D" "E" "F" "issued"]).map (·.bid)
      = [1, 2]) ∧
    FP._next_id (FP.applyOps []
      [.add "A" "B" "C" "available", .add "D" "E" "F" "issued", .del 2]) = 2 ∧
    ((FP.applyOps [] [.add "A" "B" "C" "available", .add "D" "E" "F" "issued", .del 2,
      .add "G" "H" "I" "available"]).map (·.bid) = [1, 2]) := by
  refine ⟨rfl, rfl, rfl⟩

/-- Claim C1 as amended: for every sequence of add and delete operations
starting from any store with pairwise-distinct ids, all surviving records
keep pairwise-distinct ids, and a newly added record's id (current maximum
id + 1, or 1 on an empty store) strictly exceeds every id currently present
in the store — though an id freed by a deletion may be generated again. -/
theorem c1_amended_ids (s : List FP.Book) (ops : List FP.LibOp)
    (h : (s.map (·.bid)).Nodup) :
    ((FP.applyOps s ops).map (·.bid)).Nodup ∧
    ∀ b ∈ FP.applyOps s ops, b.bid < FP._next_id (FP.applyOps s ops) := by
  refine ⟨?_, aux_bid_lt_next (FP.applyOps s ops)⟩
  induction ops generalizing s with
  | nil => exact h
  | cons op ops ih => exact ih (FP.applyOp s op) (aux_applyOp_nodup s op h)

/-- Concrete instance of c1_amended_ids on the demo store and a concrete
operation sequence. -/
theorem c1_amended_ids_witness :
    ((demoLib.map (·.bid)).Nodup) ∧
    ((FP.applyOps demoLib [.add "T" "A" "C" "issued", .del 1]).map (·.bid)).Nodup ∧
    ∀ b ∈ FP.applyOps demoLib [.add "T" "A" "C" "issued", .del 1],
      b.bid < FP._next_id (FP.applyOps demoLib [.add "T" "A" "C" "issued", .del 1]) :=
  ⟨by decide,
   (c1_amended_ids demoLib [.add "T" "A" "C" "issued", .del 1] (by decide)).1,
   (c1_amended_ids demoLib [.add "T" "A" "C" "issued", .del 1] (by decide)).2⟩

/-- Unfolding of the generated id sequence. -/
theorem aux_seqIds_succ (start : Int) (n : Nat) :
    seqIds start (n + 1) = start :: seqIds (start + 1) n := by
  unfold seqIds
  rw [List.range_succ_eq_map]
  simp only [List.map_cons, List.map_map, Nat.cast_zero, add_zero]
  refine congrArg (start :: ·) ?_
  refine List.map_congr_left ?_
  intro k _
  simp only [Function.comp_apply, Nat.succ_eq_add_one]
  push_cast
  ring

/-- The row loop of the student load assigns exactly the ids sid, sid+1, ...
to the records it keeps: a skipped row does not consume an id. -/
theorem aux_load_rows_ids (header : List String) :
    ∀ (rows : List (List String)) (sid : Int),
      (AOL.load_rows header rows sid).map (·.student_id)
        = seqIds sid (AOL.load_rows header rows sid).length := by
  intro rows
  induction rows with
  | nil => intro sid; rfl
  | cons v vs ih =>
    intro sid
    unfold AOL.load_rows
    cases hdec : AOL.decode_row header v with
    | none => exact ih sid
    | some f =>
      dsimp only
      simp only [List.map_cons, List.length_cons]
      rw [aux_seqIds_succ, ih (sid + 1)]
      rfl

/-- Claim C3 counterexample: a CSV input whose header carries every required
non-id column of the library program (title, author, category, status) but
lacks the identifier column bid is rejected by the schema check of
load_from_csv — the identifier column IS required on input there. -/
theorem c3_counterexample :
    (∀ col ∈ (["title", "author", "category", "status"] : List String),
      col ∈ demoNoBid.header) ∧
    FP.load_from_csv demoNoBid
      = .error "Could not load file. Reason: Invalid CSV format: missing required headers." :=
  ⟨by decide, rfl⟩

/-- Claim C3 as amended: in the student program the identifier column is
never required — any file passing the schema check on the required non-id
columns is loaded row by row, and ids are regenerated sequentially 1, 2, 3,
... in file row order with a malformed skipped row not consuming an id; in
the library program, by contrast, the identifier column bid is required in
the header and the whole load fails when it is absent. -/
theorem c3_amended_load_ids :
    (∀ f : CsvFile, (AOL.load_from_csv f).map (·.student_id)
        = seqIds 1 (AOL.load_from_csv f).length) ∧
    (∀ f : CsvFile, f.header ≠ [] →
      (∀ c ∈ AOL.REQUIRED_COLS,
        c ∈ (f.header.filter (fun h => decide (h ≠ ""))).map pyStrip) →
      AOL.load_from_csv f = AOL.load_rows f.header f.rows 1) ∧
    (∀ f : CsvFile, "bid" ∉ f.header → ∃ msg, FP.load_from_csv f = .error msg) := by
  refine ⟨?_, ?_, ?_⟩
  · intro f
    unfold AOL.load_from_csv
    split_ifs with h1 h2
    · rfl
    · exact aux_load_rows_ids f.header f.rows 1
    · rfl
  · intro f h1 h2
    unfold AOL.load_from_csv
    rw [if_neg h1, if_pos]
    rw [List.all_eq_true]
    intro c hc
    rw [decide_eq_true_iff]
    exact h2 c hc
  · intro f hb
    have hcond : ¬ ((["bid", "title", "author", "category", "status"] : List String).all
        (fun c => decide (c ∈ f.header)) = true) := by
      intro hall
      rw [List.all_eq_true] at hall
      have h2 := hall "bid" (by decide)
      rw [decide_eq_true_iff] at h2
      exact hb h2
    unfold FP.load_from_csv
    rw [if_neg hcond]
    exact ⟨_, rfl⟩

/-- Concrete instance of c3_amended_load_ids: a saved student store passes
the schema check (so the load proceeds without the id column being required),
and the bid-less library file demoNoBid is rejected. -/
theorem c3_amended_load_ids_witness :
    ((AOL.save_to_csv demoStudents).header ≠ [] ∧
      (∀ c ∈ AOL.REQUIRED_COLS,
        c ∈ ((AOL.save_to_csv demoStudents).header.filter
          (fun h => decide (h ≠ ""))).map pyStrip) ∧
      AOL.load_from_csv (AOL.save_to_csv demoStudents)
        = AOL.load_rows (AOL.save_to_csv demoStudents).header
            (AOL.save_to_csv demoStudents).rows 1) ∧
    ("bid" ∉ demoNoBid.header ∧
      ∃ msg, FP.load_from_csv demoNoBid = .error msg) :=
  ⟨⟨by decide, by decide,
    c3_amended_load_ids.2.1 (AOL.save_to_csv demoStudents) (by decide) (by decide)⟩,
   ⟨by decide, c3_amended_load_ids.2.2 demoNoBid (by decide)⟩⟩

/-- The shift walk only rearranges: its result is a permutation of cur
placed among the walked elements. -/
theorem aux_shiftLoop_perm {α : Type} (shift : α → Bool) (cur : α) :
    ∀ (rev moved : List α),
      (shiftLoop shift cur rev moved).Perm (cur :: (rev.reverse ++ moved)) := by
  intro rev
  induction rev with
  | nil => intro moved; simp [shiftLoop]
  | cons x rest ih =>
    intro moved
    unfold shiftLoop
    by_cases hx : shift x
    · rw [if_pos hx]
      refine (ih (x :: moved)).trans (List.Perm.of_eq ?_)
      simp [List.append_assoc]
    · rw [if_neg hx]
      have h1 : (rest.reverse ++ [x]) ++ cur :: moved
          = rest.reverse ++ x :: cur :: moved := by
        simp [List.append_assoc]
      have h2 : ((x :: rest).reverse ++ moved) = (rest.reverse ++ [x]) ++ moved := by
        simp [List.append_assoc]
      rw [h2, ← h1]
      exact List.perm_middle

/-- One insertion step is a permutation of consing the current element. -/
theorem aux_insertStep_perm {α : Type} (shift : α → Bool) (cur : α) (l : List α) :
    (insertStep shift cur l).Perm (cur :: l) := by
  have := aux_shiftLoop_perm shift cur l.reverse []
  simpa [insertStep] using this

/-- The shift walk keeps the sorted part sorted: if the walked part is sorted
(given reversed), the moved elements all sit above cur and above the walked
part, then the result is sorted. -/
theorem aux_shiftLoop_pairwise {α : Type} {R : α → α → Prop}
    (htrans : ∀ a b c, R a b → R b c → R a c) (shift : α → Bool) (cur : α)
    (hshift : ∀ x, (shift x = true → R cur x) ∧ (shift x = false → R x cur)) :
    ∀ (rev moved : List α),
      List.Pairwise (fun a b => R b a) rev →
      List.Pairwise R moved →
      (∀ x ∈ rev, ∀ y ∈ moved, R x y) →
      (∀ y ∈ moved, R cur y) →
      List.Pairwise R (shiftLoop shift cur rev moved) := by
  intro rev
  induction rev with
  | nil =>
    intro moved _ h2 _ h4
    exact List.pairwise_cons.2 ⟨h4, h2⟩
  | cons x rest ih =>
    intro moved h1 h2 h3 h4
    obtain ⟨hx, hrest⟩ := List.pairwise_cons.1 h1
    unfold shiftLoop
    by_cases hs : shift x
    · rw [if_pos hs]
      refine ih (x :: moved) hrest ?_ ?_ ?_
      · refine List.pairwise_cons.2 ⟨?_, h2⟩
        intro y hy
        exact h3 x (List.mem_cons_self x rest) y hy
      · intro z hz y hy
        rcases List.mem_cons.1 hy with hy | hy
        · rw [hy]; exact hx z hz
        · exact h3 z (List.mem_cons_of_mem x hz) y hy
      · intro y hy
        rcases List.mem_cons.1 hy with hy | hy
        · rw [hy]; exact (hshift x).1 hs
        · exact h4 y hy
    · rw [if_neg hs]
      have hs2 : shift x = false := by
        cases h : shift x
        · rfl
        · exact absurd h hs
      refine List.pairwise_append.2 ⟨List.pairwise_reverse.2 hrest, ?_, ?_⟩
      · refine List.pairwise_cons.2 ⟨?_, List.pairwise_cons.2 ⟨h4, h2⟩⟩
        intro y hy
        rcases List.mem_cons.1 hy with hy | hy
        · rw [hy]; exact (hshift x).2 hs2
        · exact h3 x (List.mem_cons_self x rest) y hy
      · intro z hz y hy
        have hz2 : z ∈ rest := List.mem_reverse.1 hz
        rcases List.mem_cons.1 hy with hy | hy
        · rw [hy]; exact hx z hz2
        · rcases List.mem_cons.1 hy with hy2 | hy2
          · rw [hy2]; exact htrans z x cur (hx z hz2) ((hshift x).2 hs2)
          · exact h3 z (List.mem_cons_of_mem x hz2) y hy2

/-- One insertion step keeps the accumulated part sorted. -/
theorem aux_insertStep_pairwise {α : Type} {R : α → α → Prop}
    (htrans : ∀ a b c, R a b → R b c → R a c) (shift : α → Bool) (cur : α)
    (hshift : ∀ x, (shift x = true → R cur x) ∧ (shift x = false → R x cur))
    (l : List α) (hl : List.Pairwise R l) :
    List.Pairwise R (insertStep shift cur l) := by
  refine aux_shiftLoop_pairwise htrans shift cur hshift l.reverse [] ?_ ?_ ?_ ?_
  · exact List.pairwise_reverse.2 (by simpa using hl)
  · exact List.Pairwise.nil
  · intro x _ y hy; exact absurd hy (List.not_mem_nil y)
  · intro y hy; exact absurd hy (List.not_mem_nil y)

/-- A left fold whose step conses up to permutation builds a permutation of
the input appended to the seed. -/
theorem aux_foldl_perm {α : Type} (g : List α → α → List α)
    (hg : ∀ acc cur, (g acc cur).Perm (cur :: acc)) :
    ∀ (l acc : List α), (l.foldl g acc).Perm (acc ++ l) := by
  intro l
  induction l with
  | nil => intro acc; simp
  | cons x xs ih =>
    intro acc
    have h1 : (xs.foldl g (g acc x)).Perm ((g acc x) ++ xs) := ih (g acc x)
    have h2 : ((g acc x) ++ xs).Perm ((x :: acc) ++ xs) := (hg acc x).append_right xs
    have h3 : ((x :: acc) ++ xs) = x :: (acc ++ xs) := rfl
    have h4 : (x :: (acc ++ xs)).Perm (acc ++ x :: xs) := List.perm_middle.symm
    exact (h1.trans h2).trans (h3 ▸ h4)

/-- A left fold whose step preserves sortedness preserves sortedness. -/
theorem aux_foldl_pairwise {α : Type} {R : α → α → Prop} (g : List α → α → List α)
    (hg : ∀ acc cur, List.Pairwise R acc → List.Pairwise R (g acc cur)) :
    ∀ (l acc : List α), List.Pairwise R acc → List.Pairwise R (l.foldl g acc) := by
  intro l
  induction l with
  | nil => intro acc h; exact h
  | cons x xs ih => intro acc h; exact ih (g acc x) (hg acc x h)

/-- The ascending instance of insertion_sort: elements shift while their key
strictly exceeds the current key. -/
theorem aux_sort_false {α K : Type} [LinearOrder K] (key_fn : α → K) (l : List α) :
    insertion_sort key_fn false l
      = l.foldl (fun acc cur =>
          insertStep (fun x => decide (key_fn x > key_fn cur)) cur acc) [] := rfl

/-- The descending instance of insertion_sort: elements shift while their key
is strictly below the current key. -/
theorem aux_sort_true {α K : Type} [LinearOrder K] (key_fn : α → K) (l : List α) :
    insertion_sort key_fn true l
      = l.foldl (fun acc cur =>
          insertStep (fun x => decide (key_fn x < key_fn cur)) cur acc) [] := rfl

/-- The manual insertion sort permutes its input. -/
theorem aux_insertion_sort_perm {α K : Type} [LinearOrder K]
    (key_fn : α → K) (reverse : Bool) (l : List α) :
    (insertion_sort key_fn reverse l).Perm l := by
  cases reverse
  · rw [aux_sort_false]
    have := aux_foldl_perm
      (fun acc cur => insertStep (fun x => decide (key_fn x > key_fn cur)) cur acc)
      (fun acc cur => aux_insertStep_perm _ cur acc) l []
    simpa using this
  · rw [aux_sort_true]
    have := aux_foldl_perm
      (fun acc cur => insertStep (fun x => decide (key_fn x < key_fn cur)) cur acc)
      (fun acc cur => aux_insertStep_perm _ cur acc) l []
    simpa using this

/-- The ascending manual insertion sort yields keys in nondecreasing order. -/
theorem aux_insertion_sort_sorted_asc {α K : Type} [LinearOrder K]
    (key_fn : α → K) (l : List α) :
    List.Pairwise (fun a b => key_fn a ≤ key_fn b) (insertion_sort key_fn false l) := by
  rw [aux_sort_false]
  refine aux_foldl_pairwise _ ?_ l [] List.Pairwise.nil
  intro acc cur hacc
  refine @aux_insertStep_pairwise α (fun a b => key_fn a ≤ key_fn b)
    (fun a b c hab hbc => le_trans hab hbc) _ cur ?_ acc hacc
  intro x
  constructor
  · intro hx
    exact le_of_lt (of_decide_eq_true hx)
  · intro hx
    exact le_of_not_lt (of_decide_eq_false hx)

/-- The descending manual insertion sort yields keys in nonincreasing
order. -/
theorem aux_insertion_sort_sorted_desc {α K : Type} [LinearOrder K]
    (key_fn : α → K) (l : List α) :
    List.Pairwise (fun a b => key_fn b ≤ key_fn a) (insertion_sort key_fn true l) := by
  rw [aux_sort_true]
  refine aux_foldl_pairwise _ ?_ l [] List.Pairwise.nil
  intro acc cur hacc
  refine @aux_insertStep_pairwise α (fun a b => key_fn b ≤ key_fn a)
    (fun a b c hab hbc => le_trans hbc hab) _ cur ?_ acc hacc
  intro x
  constructor
  · intro hx
    exact le_of_lt (of_decide_eq_true hx)
  · intro hx
    exact le_of_not_lt (of_decide_eq_false hx)

/-- Pairwise sortedness gives the adjacent-pair property. -/
theorem aux_pairwise_adjacent {α : Type} {R : α → α → Prop} :
    ∀ (l : List α), List.Pairwise R l →
      ∀ (i : Nat) (a b : α), l[i]? = some a → l[i + 1]? = some b → R a b := by
  intro l
  induction l with
  | nil =>
    intro _ i a b ha _
    rw [List.getElem?_nil] at ha
    exact Option.noConfusion ha
  | cons x xs ih =>
    intro hp i a b ha hb
    obtain ⟨hx, hxs⟩ := List.pairwise_cons.1 hp
    cases i with
    | zero =>
      simp only [List.getElem?_cons_zero, Option.some.injEq] at ha
      simp only [List.getElem?_cons_succ] at hb
      rw [← ha]
      exact hx b (List.getElem?_mem hb)
    | succ k =>
      simp only [List.getElem?_cons_succ] at ha hb
      exact ih hxs k a b ha hb

/-- Claim C5: after the manual insertion sort with any key in ascending
direction every adjacent pair of records satisfies key(R[i]) <= key(R[i+1]),
and in descending direction every adjacent pair satisfies
key(R[i]) >= key(R[i+1]). -/
theorem c5_sort_adjacent {α K : Type} [LinearOrder K] (key_fn : α → K) (l : List α) :
    (∀ (i : Nat) (a b : α), (insertion_sort key_fn false l)[i]? = some a →
      (insertion_sort key_fn false l)[i + 1]? = some b → key_fn a ≤ key_fn b) ∧
    (∀ (i : Nat) (a b : α), (insertion_sort key_fn true l)[i]? = some a →
      (insertion_sort key_fn true l)[i + 1]? = some b → key_fn b ≤ key_fn a) :=
  ⟨aux_pairwise_adjacent _ (aux_insertion_sort_sorted_asc key_fn l),
   aux_pairwise_adjacent _ (aux_insertion_sort_sorted_desc key_fn l)⟩

/-- Concrete instance of c5_sort_adjacent: sorting [3, 1, 2] ascending by the
identity key places 1 before 2. -/
theorem c5_sort_adjacent_witness :
    (insertion_sort (fun x : Int => x) false [3, 1, 2])[0]? = some 1 ∧
    (insertion_sort (fun x : Int => x) false [3, 1, 2])[0 + 1]? = some 2 ∧
    (1 : Int) ≤ 2 :=
  ⟨by decide, by decide,
   (c5_sort_adjacent (fun x : Int => x) [3, 1, 2]).1 0 1 2 (by decide) (by decide)⟩

/-- The ascending instance of the built-in sort model. -/
theorem aux_builtin_false {α K : Type} [LinearOrder K] (key_fn : α → K) (l : List α) :
    sorted_builtin key_fn false l
      = l.mergeSort (fun a b => decide (key_fn a ≤ key_fn b)) := rfl

/-- The descending instance of the built-in sort model. -/
theorem aux_builtin_true {α K : Type} [LinearOrder K] (key_fn : α → K) (l : List α) :
    sorted_builtin key_fn true l
      = l.mergeSort (fun a b => decide (key_fn b ≤ key_fn a)) := rfl

/-- Claim C6: the manual insertion sort and the platform sort applied to the
same key and direction produce the same multiset of records and identical key
sequences; only the relative order of equal-key records may differ. -/
theorem c6_sort_agreement {α K : Type} [LinearOrder K]
    (key_fn : α → K) (reverse : Bool) (l : List α) :
    (insertion_sort key_fn reverse l).Perm (sorted_builtin key_fn reverse l) ∧
    (insertion_sort key_fn reverse l).map key_fn
      = (sorted_builtin key_fn reverse l).map key_fn := by
  have hperm1 : (insertion_sort key_fn reverse l).Perm l :=
    aux_insertion_sort_perm key_fn reverse l
  have hperm2 : (sorted_builtin key_fn reverse l).Perm l := by
    cases reverse
    · rw [aux_builtin_false]; exact List.mergeSort_perm l _
    · rw [aux_builtin_true]; exact List.mergeSort_perm l _
  have hperm : (insertion_sort key_fn reverse l).Perm (sorted_builtin key_fn reverse l) :=
    hperm1.trans hperm2.symm
  refine ⟨hperm, ?_⟩
  have hmapperm : ((insertion_sort key_fn reverse l).map key_fn).Perm
      ((sorted_builtin key_fn reverse l).map key_fn) := hperm.map key_fn
  cases reverse
  · have hs1 : List.Pairwise (fun a b : K => a ≤ b)
        ((insertion_sort key_fn false l).map key_fn) :=
      List.pairwise_map.2 (aux_insertion_sort_sorted_asc key_fn l)
    have hs2 : List.Pairwise (fun a b : K => a ≤ b)
        ((sorted_builtin key_fn false l).map key_fn) := by
      rw [aux_builtin_false]
      refine List.pairwise_map.2 ?_
      have hms := @List.sorted_mergeSort α (fun a b => decide (key_fn a ≤ key_fn b))
        (fun a b c hab hbc => decide_eq_true
          (le_trans (of_decide_eq_true hab) (of_decide_eq_true hbc)))
        (fun a b => by
          rcases le_total (key_fn a) (key_fn b) with h | h
          · simp [h]
          · simp [h]) l
      exact hms.imp (fun h => of_decide_eq_true h)
    exact List.eq_of_perm_of_sorted hmapperm hs1 hs2
  · have hs1 : List.Pairwise (fun a b : K => b ≤ a)
        ((insertion_sort key_fn true l).map key_fn) :=
      List.pairwise_map.2 (aux_insertion_sort_sorted_desc key_fn l)
    have hs2 : List.Pairwise (fun a b : K => b ≤ a)
        ((sorted_builtin key_fn true l).map key_fn) := by
      rw [aux_builtin_true]
      refine List.pairwise_map.2 ?_
      have hms := @List.sorted_mergeSort α (fun a b => decide (key_fn b ≤ key_fn a))
        (fun a b c hab hbc => decide_eq_true
          (le_trans (of_decide_eq_true hbc) (of_decide_eq_true hab)))
        (fun a b => by
          rcases le_total (key_fn b) (key_fn a) with h | h
          · simp [h]
          · simp [h]) l
      exact hms.imp (fun h => of_decide_eq_true h)
    haveI : IsAntisymm K (fun a b => b ≤ a) :=
      ⟨fun a b h1 h2 => le_antisymm h2 h1⟩
    exact List.eq_of_perm_of_sorted hmapperm hs1 hs2

/-- Encoding then parsing an in-range score returns the same value: Python
str followed by int is the identity on 0..100. -/
theorem aux_parse_roundtrip :
    ∀ n : Nat, n < 101 → pyInt? (pyStrip (toString (Int.ofNat n))) = some (Int.ofNat n) := by
  decide

/-- Parse form of aux_parse_roundtrip for an Int known to lie in 0..100. -/
theorem aux_parse_roundtrip_int (m : Int) (h0 : 0 ≤ m) (h1 : m ≤ 100) :
    pyInt? (pyStrip (toString m)) = some m := by
  obtain ⟨n, rfl⟩ := Int.eq_ofNat_of_zero_le h0
  refine aux_parse_roundtrip n ?_
  omega

/-- Decoding a row written by to_row recovers the record's non-id fields, for
any record satisfying the Store invariant. -/
theorem aux_decode_to_row (r : AOL.StudentRecord) (h : AOL.WFRecord r) :
    AOL.decode_row AOL.SAVE_FIELDNAMES (AOL.to_row r) = some (AOL.fieldsOf r) := by
  obtain ⟨hg1, hg2, hra1, hra2, hp1, hp2, hl1, hl2, hc1, hc2,
    hm0, hm1, hrs0, hrs1, hw0, hw1⟩ := h
  have e1 : rowGet AOL.SAVE_FIELDNAMES (AOL.to_row r) "gender" = some r.gender := rfl
  have e2 : rowGet AOL.SAVE_FIELDNAMES (AOL.to_row r) "race/ethnicity"
      = some r.race_ethnicity := rfl
  have e3 : rowGet AOL.SAVE_FIELDNAMES (AOL.to_row r) "parental level of education"
      = some r.parental_education := rfl
  have e4 : rowGet AOL.SAVE_FIELDNAMES (AOL.to_row r) "lunch" = some r.lunch := rfl
  have e5 : rowGet AOL.SAVE_FIELDNAMES (AOL.to_row r) "test preparation course"
      = some r.prep_course := rfl
  have e6 : rowGet AOL.SAVE_FIELDNAMES (AOL.to_row r) "math score"
      = some (toString r.math_score) := rfl
  have e7 : rowGet AOL.SAVE_FIELDNAMES (AOL.to_row r) "reading score"
      = some (toString r.reading_score) := rfl
  have e8 : rowGet AOL.SAVE_FIELDNAMES (AOL.to_row r) "writing score"
      = some (toString r.writing_score) := rfl
  unfold AOL.decode_row
  rw [e1, e2, e3, e4, e5, e6, e7, e8]
  dsimp only [Option.getD_some]
  rw [hg1, hra1, hp1, hl1, hc1]
  rw [aux_parse_roundtrip_int r.math_score hm0 hm1,
    aux_parse_roundtrip_int r.reading_score hrs0 hrs1,
    aux_parse_roundtrip_int r.writing_score hw0 hw1]
  dsimp only
  rw [if_neg (by simp [hg2, hra2, hp2, hl2, hc2]),
    if_neg (not_not_intro ⟨hm0, hm1, hrs0, hrs1, hw0, hw1⟩)]
  rfl

/-- Loading the rows written by save recovers the field lists with fresh
sequential ids. -/
theorem aux_load_rows_map :
    ∀ (records : List AOL.StudentRecord) (sid : Int),
      (∀ r ∈ records, AOL.WFRecord r) →
      AOL.load_rows AOL.SAVE_FIELDNAMES (records.map AOL.to_row) sid
        = AOL.number_from sid (records.map AOL.fieldsOf) := by
  intro records
  induction records with
  | nil => intro sid _; rfl
  | cons r rs ih =>
    intro sid h
    rw [List.map_cons, List.map_cons]
    unfold AOL.load_rows AOL.number_from
    rw [aux_decode_to_row r (h r (List.mem_cons_self r rs))]
    dsimp only
    rw [ih (sid + 1) (fun x hx => h x (List.mem_cons_of_mem r hx))]

/-- Renumbered records keep exactly their field lists. -/
theorem aux_number_from_fields :
    ∀ (fs : List AOL.StudentFields) (sid : Int),
      (AOL.number_from sid fs).map AOL.fieldsOf = fs := by
  intro fs
  induction fs with
  | nil => intro sid; rfl
  | cons f fs ih =>
    intro sid
    unfold AOL.number_from
    rw [List.map_cons, ih (sid + 1)]
    rfl

/-- Renumbered records carry exactly the sequential ids. -/
theorem aux_number_from_ids :
    ∀ (fs : List AOL.StudentFields) (sid : Int),
      (AOL.number_from sid fs).map (·.student_id) = seqIds sid fs.length := by
  intro fs
  induction fs with
  | nil => intro sid; rfl
  | cons f fs ih =>
    intro sid
    unfold AOL.number_from
    rw [List.map_cons, ih (sid + 1), List.length_cons, aux_seqIds_succ]
    rfl

/-- Claim C4: loading what save wrote reproduces a store whose records equal
the original records in all non-id fields (byte-identical field values),
with ids renumbered sequentially 1, 2, 3, ... by row order, for every store
satisfying the Store invariant (validated text fields and 0..100 scores). -/
theorem c4_round_trip (records : List AOL.StudentRecord)
    (h : ∀ r ∈ records, AOL.WFRecord r) :
    (AOL.load_from_csv (AOL.save_to_csv records)).map AOL.fieldsOf
      = records.map AOL.fieldsOf ∧
    (AOL.load_from_csv (AOL.save_to_csv records)).map (·.student_id)
      = seqIds 1 records.length := by
  have hload : AOL.load_from_csv (AOL.save_to_csv records)
      = AOL.number_from 1 (records.map AOL.fieldsOf) := by
    unfold AOL.load_from_csv AOL.save_to_csv
    dsimp only
    rw [if_neg (by decide), if_pos (by decide)]
    exact aux_load_rows_map records 1 h
  rw [hload, aux_number_from_fields, aux_number_from_ids, List.length_map]
  exact ⟨rfl, rfl⟩

/-- Concrete instance of c4_round_trip on the demo store. -/
theorem c4_round_trip_witness :
    (∀ r ∈ demoStudents, AOL.WFRecord r) ∧
    (AOL.load_from_csv (AOL.save_to_csv demoStudents)).map AOL.fieldsOf
      = demoStudents.map AOL.fieldsOf ∧
    (AOL.load_from_csv (AOL.save_to_csv demoStudents)).map (·.student_id)
      = seqIds 1 demoStudents.length :=
  have hwf : ∀ r ∈ demoStudents, AOL.WFRecord r := by
    intro r hr
    fin_cases hr
    · unfold AOL.WFRecord
      decide
    · unfold AOL.WFRecord
      decide
  ⟨hwf, c4_round_trip demoStudents hwf⟩
